import Mathlib

/-!
Verification of the `zan-shop/money` library: an exact-decimal number type
(`ZanNumber`, backed by bignumber.js `BigNumber`) and a currency-tagged
`Money` value object built on top of it.

The embedding models a finite `BigNumber` value as a sign-magnitude decimal
`Dec` (sign flag, natural mantissa, decimal scale), so that the library's
negative zero is representable, mirroring bignumber.js which keeps a sign on
zero internally (its `toString`, however, suppresses the sign when the
coefficient is zero).  All arithmetic on `Dec` is exact, as it is in bignumber.js for the
operations the library uses (plus, minus, times by 100, dividedBy 100 of an
integer).  The JavaScript number type is modelled by `JsNumber`: either
non-finite (NaN / ±Infinity, which the library treats uniformly) or a finite
value given by its exact decimal expansion (every finite IEEE double has
one).  `BigNumber.prototype.toNumber` is modelled as exact; this is faithful
whenever the value is exactly representable as a double, and every theorem
below that depends on `toNumber` (through `Money.toCents`) confines its
inputs to that domain.
-/

/-- A finite bignumber.js value: `(if neg then -1 else 1) * m / 10 ^ s`.
The representation is not required to be trim; trailing zeros of the
fractional part are stripped by `Dec.decToString`, as bignumber.js strips
them when it builds its coefficient array. -/
structure Dec where
  neg : Bool
  m : Nat
  s : Nat
deriving DecidableEq, Repr

/-- The signed integer mantissa of a `Dec`. -/
def Dec.intVal (d : Dec) : Int :=
  (if d.neg then -1 else 1) * (d.m : Int)

/-- The exact rational value of a `Dec`. -/
def Dec.toRat (d : Dec) : ℚ :=
  (d.intVal : ℚ) / (10 : ℚ) ^ d.s

/-- Value comparison (`BigNumber.prototype.comparedTo`, strict less-than):
cross-multiplied integer comparison, so `-0` and `0` compare equal, exactly
as bignumber.js treats two zeros as equal regardless of sign. -/
def Dec.blt (a b : Dec) : Bool :=
  a.intVal * (10 : Int) ^ b.s < b.intVal * (10 : Int) ^ a.s

/-- Value comparison, less-than-or-equal. -/
def Dec.ble (a b : Dec) : Bool :=
  a.intVal * (10 : Int) ^ b.s ≤ b.intVal * (10 : Int) ^ a.s

/-- Value equality (`BigNumber.prototype.isEqualTo`). -/
def Dec.beqv (a b : Dec) : Bool :=
  a.intVal * (10 : Int) ^ b.s == b.intVal * (10 : Int) ^ a.s

/-- `BigNumber.prototype.plus`: exact decimal addition.  The operands are
brought to the common scale `max a.s b.s` and the signed mantissas added.
The sign of a zero result is positive, as in bignumber.js for the sum of
two nonzero-or-mixed-sign operands. -/
def Dec.plus (a b : Dec) : Dec :=
  let σ := max a.s b.s
  let t := a.intVal * (10 : Int) ^ (σ - a.s) + b.intVal * (10 : Int) ^ (σ - b.s)
  ⟨t < 0, t.natAbs, σ⟩

/-- `BigNumber.prototype.minus`: exact decimal subtraction. -/
def Dec.minus (a b : Dec) : Dec :=
  Dec.plus a ⟨!b.neg, b.m, b.s⟩

/-- `BigNumber.prototype.times(100)`: exact (multiplies the mantissa). -/
def Dec.times100 (d : Dec) : Dec :=
  ⟨d.neg, d.m * 100, d.s⟩

/-- `BigNumber.prototype.dividedBy(100)` as used by `MoneyFactory.fromCents`:
the mantissa is kept and the scale grows by two.  This is exact; it is
faithful to bignumber.js (whose division rounds to the configured 20
decimal places) because `fromCents` only ever divides an integer by 100,
so the exact quotient has at most two fractional digits. -/
def Dec.div100 (d : Dec) : Dec :=
  ⟨d.neg, d.m, d.s + 2⟩

/-- Whether a `Dec` is an integer (`Number.isInteger` on the modelled
value): the mantissa is divisible by `10 ^ s`. -/
def Dec.isInt (d : Dec) : Bool :=
  d.m % 10 ^ d.s == 0

/-- `BigNumber.prototype.decimalPlaces(scale, ROUND_HALF_UP)`:
round to `dp` fractional digits, ties away from zero on the magnitude
(bignumber.js `ROUND_HALF_UP` is round-half-away-from-zero). -/
def Dec.decimalPlaces (d : Dec) (dp : Nat) : Dec :=
  if d.s ≤ dp then d
  else
    let k := d.s - dp
    let q := d.m / 10 ^ k
    let r := d.m % 10 ^ k
    ⟨d.neg, if 10 ^ k ≤ 2 * r then q + 1 else q, dp⟩

/-! ### Decimal digit strings -/

/-- The ten decimal digit characters (the regex class `\d`). -/
def decDigitChars : List Char := ['0', '1', '2', '3', '4', '5', '6', '7', '8', '9']

/-- Whether a character is a decimal digit. -/
def isDigitCh (c : Char) : Bool := decDigitChars.contains c

/-- Numeric value of a digit character. -/
def chVal (c : Char) : Nat := c.toNat - 48

/-- Digit character of a value below ten. -/
def chOfVal (v : Nat) : Char := Char.ofNat (48 + v)

/-- Little-endian base-10 digits, fuel-driven so that it reduces by `rfl`
(the fuel only bounds the recursion depth). -/
def natDigitsRevAux : Nat → Nat → List Nat
  | 0, _ => []
  | _, 0 => []
  | fuel+1, n => n % 10 :: natDigitsRevAux fuel (n / 10)

/-- Little-endian base-10 digits of a natural number (empty for zero). -/
def natDigitsRev (n : Nat) : List Nat := natDigitsRevAux n n

/-- Big-endian decimal digit characters of a natural number
(`"0"` for zero). -/
def natToChars (n : Nat) : List Char :=
  if n = 0 then ['0'] else ((natDigitsRev n).reverse).map chOfVal

/-- Value of a big-endian digit-character string (Horner evaluation). -/
def digitsToNat (l : List Char) : Nat :=
  l.foldl (fun a c => 10 * a + chVal c) 0

/-- Strip trailing zeros from a mantissa/scale pair: while the scale is
positive and the mantissa ends in 0, drop that digit.  bignumber.js keeps
its coefficient in this trimmed form. -/
def stripTZ : Nat → Nat → Nat × Nat
  | m, 0 => (m, 0)
  | m, s+1 => if m % 10 = 0 then stripTZ (m / 10) s else (m, s + 1)

/-! ### `BigNumber` construction from a plain decimal string

`new BigNumber(string)` accepts more shapes (exponent notation, leading
`+`, other radices); the transfer-record contract only guarantees the plain
pattern `^-?\d+(\.\d+)?$`, and every string the claims quantify over matches
it.  Strings outside this fragment are modelled as unparsed (`none`, i.e.
NaN), which agrees with bignumber.js on every input actually used. -/

/-- Decompose the unsigned part `\d+(\.\d+)?` of a plain decimal literal:
a nonempty digit run, optionally followed by `.` and a nonempty digit run,
and nothing else. -/
def decompUnsigned (n : Bool) (l₁ : List Char) : Option (Bool × List Char × List Char) :=
  if l₁.takeWhile isDigitCh = [] then none
  else
    match l₁.dropWhile isDigitCh with
    | [] => some (n, l₁.takeWhile isDigitCh, [])
    | '.' :: fs =>
      if fs ≠ [] ∧ fs.all isDigitCh then some (n, l₁.takeWhile isDigitCh, fs) else none
    | _ => none

/-- Decompose a plain decimal literal `-?\d+(\.\d+)?` into
(sign, integer digits, fraction digits).  Returns `none` when the string
does not match the pattern. -/
def decompAmount (l : List Char) : Option (Bool × List Char × List Char) :=
  match l with
  | '-' :: rest => decompUnsigned true rest
  | _ => decompUnsigned false l

/-- Rebuild the string from a decomposition. -/
def rebuildAmount (n : Bool) (i f : List Char) : List Char :=
  (if n then ['-'] else []) ++ i ++ (if f = [] then [] else '.' :: f)

/-- Parse a plain decimal literal into a `Dec`
(`new BigNumber(string)` on the plain-pattern fragment). -/
def bigFromPlainChars (l : List Char) : Option Dec :=
  (decompAmount l).map fun (n, i, f) => ⟨n, digitsToNat (i ++ f), f.length⟩

/-- String-level entry point of the plain-decimal parser. -/
def bigFromPlainString (s : String) : Option Dec :=
  bigFromPlainChars s.data

/-! ### `BigNumber.prototype.toString`

bignumber.js first trims the coefficient, then prints positional (plain)
notation when the exponent `e` of the most significant digit satisfies
`TO_EXP_NEG < e < TO_EXP_POS` (defaults `-7` and `21`), and exponential
notation such as `1e-7` / `1.5e+21` otherwise.  A zero always prints as
`0`: the minus sign is prepended only when the coefficient is nonzero, so
negative zero prints without its sign. -/

/-- Plain positional rendering of a trimmed mantissa/scale pair. -/
def plainChars (m s : Nat) : List Char :=
  if s = 0 then natToChars m
  else if s < (natToChars m).length then
    (natToChars m).take ((natToChars m).length - s) ++
      '.' :: (natToChars m).drop ((natToChars m).length - s)
  else
    '0' :: '.' :: (List.replicate (s - (natToChars m).length) '0' ++ natToChars m)

/-- Exponential rendering: leading digit, optional fraction, `e±exp`. -/
def expChars (ds : List Char) (e : Int) : List Char :=
  (match ds with
   | [] => []
   | d₀ :: rest => d₀ :: (if rest = [] then [] else '.' :: rest)) ++
  'e' :: (if e < 0 then '-' else '+') :: natToChars e.natAbs

/-- The decimal exponent of the most significant digit of the trimmed
value `m / 10 ^ s` (only meaningful for `m ≠ 0`). -/
def msdExp (m s : Nat) : Int :=
  ((natToChars m).length : Int) - 1 - (s : Int)

/-- Rendering of a trimmed (coefficient, scale) pair: plain positional
notation when the exponent lies strictly between the bignumber.js
thresholds `TO_EXP_NEG = -7` and `TO_EXP_POS = 21`, exponential notation
otherwise; a zero prints as `0` with no sign — bignumber.js prepends the
minus only when the coefficient is nonzero (`if (s < 0 && x.c[0])`), so
negative zero prints as `0`.  In exponential form the
displayed coefficient additionally drops all trailing zeros, as
bignumber.js keeps its coefficient trimmed at both ends. -/
def decCharsTrimmed (neg : Bool) (m s : Nat) : List Char :=
  if m = 0 then ['0']
  else if -7 < msdExp m s ∧ msdExp m s < 21 then
    (if neg then ['-'] else []) ++ plainChars m s
  else
    (if neg then ['-'] else []) ++
      expChars (((natDigitsRev m).dropWhile (fun v => v == 0)).reverse.map chOfVal) (msdExp m s)

/-- `BigNumber.prototype.toString()` (base 10): trim the coefficient,
then render. -/
def Dec.decToChars (d : Dec) : List Char :=
  decCharsTrimmed d.neg (stripTZ d.m d.s).1 (stripTZ d.m d.s).2

/-- `toString` as a Lean `String`. -/
def Dec.decToString (d : Dec) : String :=
  ⟨d.decToChars⟩

/-- Whether `toString` renders this `Dec` in plain (non-exponential)
notation: the value is zero or the exponent of its most significant digit
lies strictly between `-7` and `21`. -/
def Dec.plainRangeOk (d : Dec) : Bool :=
  (stripTZ d.m d.s).1 == 0 ||
    (-7 < msdExp (stripTZ d.m d.s).1 (stripTZ d.m d.s).2 ∧
     msdExp (stripTZ d.m d.s).1 (stripTZ d.m d.s).2 < 21)

/-! ### JavaScript-level value shapes -/

/-- A JavaScript `number`: non-finite (NaN or ±Infinity — the library
rejects all of them with the same check `isNaN(v) || !isFinite(v)`), or a
finite value given by its exact decimal expansion. -/
inductive JsNumber where
  | nonfinite
  | val (d : Dec)
deriving DecidableEq, Repr

/-- A bignumber.js `BigNumber`: non-finite (NaN or ±Infinity, rejected
uniformly by `isNaN() || !isFinite()`), or a finite decimal. -/
inductive JsBigNumber where
  | nonfinite
  | val (d : Dec)
deriving DecidableEq, Repr

/-- The error conditions the library raises (each constructor corresponds
to one `throw new Error(...)` site). -/
inductive Err where
  | invalidBigNumberValue
  | invalidNumberValue
  | invalidStringFormat
  | invalidInputType
  | divisionByZero
  | invalidCurrencyCode
  | addMismatch
  | subtractMismatch
  | compareMismatch
  | sumMismatch
  | emptySum
  | emptyMin
  | emptyMax
  | invalidMoneyString
  | invalidMoneyNumber
  | invalidMoneyBigNumber
  | invalidMoneyInput
  | centsNotInteger
deriving DecidableEq, Repr

/-- The spec groups the four mismatch messages (`add`, `subtract`,
comparisons, static `sum`) into the single `CurrencyMismatch` condition. -/
def Err.isCurrencyMismatch : Err → Bool
  | .addMismatch | .subtractMismatch | .compareMismatch | .sumMismatch => true
  | _ => false

/-- The spec groups the three empty-array messages of the `Money` statics
into the `EmptySequence` condition. -/
def Err.isEmptySequence : Err → Bool
  | .emptySum | .emptyMin | .emptyMax => true
  | _ => false

/-! ### `ZanNumber` -/

/-- A `ZanNumber`: an immutable wrapper around a validated (finite,
non-NaN) `BigNumber`. -/
structure ZanNumber where
  value : Dec
deriving DecidableEq, Repr

/-- A runtime value fed to the `ZanNumber` constructor: a `BigNumber`, a
`number`, a `string`, or anything else (`otherVal`, the constructor's
`else` branch). -/
inductive ZanCtorInput where
  | big (b : JsBigNumber)
  | num (n : JsNumber)
  | str (s : String)
  | otherVal
deriving Repr

/-- The `ZanNumber` constructor: validates each accepted shape and throws
on NaN / non-finite / unparsable / alien inputs. -/
def ZanNumber.ofInput : ZanCtorInput → Except Err ZanNumber
  | .big .nonfinite => .error .invalidBigNumberValue
  | .big (.val d) => .ok ⟨d⟩
  | .num .nonfinite => .error .invalidNumberValue
  | .num (.val d) => .ok ⟨d⟩
  | .str s =>
    match bigFromPlainString s with
    | none => .error .invalidStringFormat
    | some d => .ok ⟨d⟩
  | .otherVal => .error .invalidInputType

/-- An argument of the `ZanNumber` comparison methods (`ComparableNumber`
plus, at runtime, any other value). -/
inductive ComparableArg where
  | zan (z : ZanNumber)
  | other (i : ZanCtorInput)
deriving Repr

/-- `ZanNumber.createValueForComparisonOperations`: a `ZanNumber` passes
through, everything else goes through the (throwing) constructor. -/
def ZanNumber.createValueForComparisonOperations : ComparableArg → Except Err ZanNumber
  | .zan z => .ok z
  | .other i => ZanNumber.ofInput i

/-- `ZanNumber.prototype.isEqual`. -/
def ZanNumber.isEqual (z : ZanNumber) (o : ComparableArg) : Except Err Bool :=
  (ZanNumber.createValueForComparisonOperations o).map fun w => Dec.beqv z.value w.value

/-- `ZanNumber.prototype.isLessThan`. -/
def ZanNumber.isLessThan (z : ZanNumber) (o : ComparableArg) : Except Err Bool :=
  (ZanNumber.createValueForComparisonOperations o).map fun w => Dec.blt z.value w.value

/-- `ZanNumber.prototype.isLessThanOrEqual`. -/
def ZanNumber.isLessThanOrEqual (z : ZanNumber) (o : ComparableArg) : Except Err Bool :=
  (ZanNumber.createValueForComparisonOperations o).map fun w => Dec.ble z.value w.value

/-- `ZanNumber.prototype.isGreaterThan`. -/
def ZanNumber.isGreaterThan (z : ZanNumber) (o : ComparableArg) : Except Err Bool :=
  (ZanNumber.createValueForComparisonOperations o).map fun w => Dec.blt w.value z.value

/-- `ZanNumber.prototype.isGreaterThanOrEqual`. -/
def ZanNumber.isGreaterThanOrEqual (z : ZanNumber) (o : ComparableArg) : Except Err Bool :=
  (ZanNumber.createValueForComparisonOperations o).map fun w => Dec.ble w.value z.value

/-- `ZanNumber.prototype.add`. -/
def ZanNumber.add (z w : ZanNumber) : ZanNumber :=
  ⟨Dec.plus z.value w.value⟩

/-- `ZanNumber.prototype.subtract`. -/
def ZanNumber.subtract (z w : ZanNumber) : ZanNumber :=
  ⟨Dec.minus z.value w.value⟩

/-- `ZanNumber.prototype.round(scale)` with an explicit scale
(`decimalPlaces(scale, ROUND_HALF_UP)`). -/
def ZanNumber.round (z : ZanNumber) (scale : Nat) : ZanNumber :=
  ⟨Dec.decimalPlaces z.value scale⟩

/-- `ZanNumber.prototype.toString()`. -/
def ZanNumber.toString (z : ZanNumber) : String :=
  Dec.decToString z.value

/-- `BigNumber.sum(...)`: with zero operands the fold seed is
`new BigNumber(undefined)`, i.e. NaN (`none`); finite operands add
exactly. -/
def bigSum : List Dec → Option Dec
  | [] => none
  | x :: xs => some (xs.foldl Dec.plus x)

/-- `BigNumber.min(...)`: NaN (`none`) on zero operands; ties keep the
earlier operand. -/
def bigMinList : List Dec → Option Dec
  | [] => none
  | x :: xs => some (xs.foldl (fun acc y => if Dec.blt y acc then y else acc) x)

/-- `BigNumber.max(...)`: NaN (`none`) on zero operands; ties keep the
earlier operand. -/
def bigMaxList : List Dec → Option Dec
  | [] => none
  | x :: xs => some (xs.foldl (fun acc y => if Dec.blt acc y then y else acc) x)

/-- Static `ZanNumber.sum`: wraps `BigNumber.sum` in the validating
constructor, so the NaN produced by an empty argument list is rejected
with the invalid-BigNumber condition. -/
def ZanNumber.sum (args : List ZanNumber) : Except Err ZanNumber :=
  match bigSum (args.map ZanNumber.value) with
  | none => .error .invalidBigNumberValue
  | some d => .ok ⟨d⟩

/-- Static `ZanNumber.min`. -/
def ZanNumber.min (args : List ZanNumber) : Except Err ZanNumber :=
  match bigMinList (args.map ZanNumber.value) with
  | none => .error .invalidBigNumberValue
  | some d => .ok ⟨d⟩

/-- Static `ZanNumber.max`. -/
def ZanNumber.max (args : List ZanNumber) : Except Err ZanNumber :=
  match bigMaxList (args.map ZanNumber.value) with
  | none => .error .invalidBigNumberValue
  | some d => .ok ⟨d⟩

/-! ### Currency codes -/

/-- The fixed recognized set (`CurrencyEnum`). -/
def currencyEnumValues : List String :=
  ["PLN", "EUR", "USD", "GBP", "CHF", "CZK", "DKK", "SEK", "NOK", "HUF",
   "RON", "BGN", "UAH", "TRY", "JPY", "CNY", "AUD", "CAD", "NZD", "ZAR",
   "BRL", "MXN", "INR", "KRW", "SGD", "HKD", "THB", "IDR", "MYR", "PHP",
   "SAR", "KWD", "QAR", "OMR", "AED", "BHD", "IQD", "SYP", "EGP"]

/-- `isValidCurrencyCode`: membership in the recognized set. -/
def isValidCurrencyCode (c : String) : Bool :=
  currencyEnumValues.contains c

/-- `validateCurrencyCode`: throws on an unrecognized code. -/
def validateCurrencyCode (c : String) : Except Err Unit :=
  if isValidCurrencyCode c then .ok () else .error .invalidCurrencyCode

/-! ### `Money` -/

/-- A `Money`: an immutable `(ZanNumber, currency code)` pair. -/
structure Money where
  value : ZanNumber
  currencyCode : String
deriving DecidableEq, Repr

/-- The `Money` constructor: validates the currency code, then builds the
internal `ZanNumber` (whose constructor validates the numeric input). -/
def Money.create (v : ZanCtorInput) (c : String) : Except Err Money := do
  let _ ← validateCurrencyCode c
  let z ← ZanNumber.ofInput v
  .ok ⟨z, c⟩

/-- `Money.prototype.toString()`. -/
def Money.toString (m : Money) : String :=
  ZanNumber.toString m.value

/-- `Money.prototype.add`: currency check, then exact addition, rewrapped
through the (revalidating) constructor. -/
def Money.add (a b : Money) : Except Err Money :=
  if a.currencyCode ≠ b.currencyCode then .error .addMismatch
  else Money.create (.big (.val (ZanNumber.add a.value b.value).value)) a.currencyCode

/-- `Money.prototype.subtract`. -/
def Money.subtract (a b : Money) : Except Err Money :=
  if a.currencyCode ≠ b.currencyCode then .error .subtractMismatch
  else Money.create (.big (.val (ZanNumber.subtract a.value b.value).value)) a.currencyCode

/-- `Money.prototype.isEqual` on a `Money` argument: total; differing
currency codes yield `false`, and the `ZanNumber` delegation is on a
`ZanNumber` argument, for which `createValueForComparisonOperations` is
the identity, hence plain value equality. -/
def Money.isEqual (a b : Money) : Bool :=
  a.currencyCode == b.currencyCode && Dec.beqv a.value.value b.value.value

/-- `Money.prototype.isLessThan`. -/
def Money.isLessThan (a b : Money) : Except Err Bool :=
  if a.currencyCode ≠ b.currencyCode then .error .compareMismatch
  else ZanNumber.isLessThan a.value (.zan b.value)

/-- `Money.prototype.isLessThanOrEqual`. -/
def Money.isLessThanOrEqual (a b : Money) : Except Err Bool :=
  if a.currencyCode ≠ b.currencyCode then .error .compareMismatch
  else ZanNumber.isLessThanOrEqual a.value (.zan b.value)

/-- `Money.prototype.isGreaterThan`. -/
def Money.isGreaterThan (a b : Money) : Except Err Bool :=
  if a.currencyCode ≠ b.currencyCode then .error .compareMismatch
  else ZanNumber.isGreaterThan a.value (.zan b.value)

/-- `Money.prototype.isGreaterThanOrEqual`. -/
def Money.isGreaterThanOrEqual (a b : Money) : Except Err Bool :=
  if a.currencyCode ≠ b.currencyCode then .error .compareMismatch
  else ZanNumber.isGreaterThanOrEqual a.value (.zan b.value)

/-- Which of the two operand objects an operation returns: the receiver
(`this`) or the argument (`other`).  JavaScript object identity is not
expressible through structural values, so `Money.prototype.min` / `max`
are split into the selection of the returned operand (read directly off
the source's `this.isLessThan(other) ? this : other`) and the projection
`Money.min` / `Money.max` to the selected operand. -/
inductive WhichOperand where
  | receiver
  | argument
deriving DecidableEq, Repr

/-- The operand `Money.prototype.min` returns: the receiver exactly when
`this.isLessThan(other)` is `true`. -/
def Money.minSel (a b : Money) : Except Err WhichOperand :=
  if a.currencyCode ≠ b.currencyCode then .error .compareMismatch
  else .ok (if Dec.blt a.value.value b.value.value then .receiver else .argument)

/-- `Money.prototype.min`: one of the two operands, chosen by `minSel`. -/
def Money.min (a b : Money) : Except Err Money :=
  (Money.minSel a b).map fun
    | .receiver => a
    | .argument => b

/-- The operand `Money.prototype.max` returns: the receiver exactly when
`this.isGreaterThan(other)` is `true`. -/
def Money.maxSel (a b : Money) : Except Err WhichOperand :=
  if a.currencyCode ≠ b.currencyCode then .error .compareMismatch
  else .ok (if Dec.blt b.value.value a.value.value then .receiver else .argument)

/-- `Money.prototype.max`: one of the two operands, chosen by `maxSel`. -/
def Money.max (a b : Money) : Except Err Money :=
  (Money.maxSel a b).map fun
    | .receiver => a
    | .argument => b

/-- Static `Money.sum`: explicit empty check, currency check of every
operand against the first, then delegation to `ZanNumber.sum` and
rewrapping through the constructor. -/
def Money.sum (args : List Money) : Except Err Money :=
  match args with
  | [] => .error .emptySum
  | first :: rest =>
    if rest.all fun mn => mn.currencyCode == first.currencyCode then
      match ZanNumber.sum ((first :: rest).map Money.value) with
      | .ok z => Money.create (.big (.val z.value)) first.currencyCode
      | .error e => .error e
    else .error .sumMismatch

/-- Static `Money.min` (named `minList` here because Lean cannot give the
static and the instance method the same name). -/
def Money.minList (args : List Money) : Except Err Money :=
  match args with
  | [] => .error .emptyMin
  | first :: rest =>
    if rest.all fun mn => mn.currencyCode == first.currencyCode then
      match ZanNumber.min ((first :: rest).map Money.value) with
      | .ok z => Money.create (.big (.val z.value)) first.currencyCode
      | .error e => .error e
    else .error .compareMismatch

/-- Static `Money.max` (named `maxList` here, as for `minList`). -/
def Money.maxList (args : List Money) : Except Err Money :=
  match args with
  | [] => .error .emptyMax
  | first :: rest =>
    if rest.all fun mn => mn.currencyCode == first.currencyCode then
      match ZanNumber.max ((first :: rest).map Money.value) with
      | .ok z => Money.create (.big (.val z.value)) first.currencyCode
      | .error e => .error e
    else .error .compareMismatch

/-- JavaScript `Math.round` on an exact value: floor of `q + 1/2`
(rounds half toward positive infinity). -/
def jsMathRound (q : ℚ) : Int :=
  ⌊q + 1 / 2⌋

/-- `Money.prototype.toCents`:
`Math.round(this._value.toBigNumber().times(100).toNumber())`, with
`toNumber` modelled as exact.  This idealization is faithful exactly when
the decimal value times 100 is representable as an IEEE double (then the
conversion is lossless); every theorem below about `toCents` keeps its
inputs inside that domain — in particular, for an exact-half tie k + 1/2
it requires |2k + 1| < 2^53, the representability bound of the tie. -/
def Money.toCents (mn : Money) : Int :=
  jsMathRound (Dec.toRat (Dec.times100 mn.value.value))

/-- The transfer record (`MoneyDto`). -/
structure MoneyDto where
  amount : String
  currency : String
deriving DecidableEq, Repr

/-- `Money.prototype.toMoneyDto`. -/
def Money.toMoneyDto (mn : Money) : MoneyDto :=
  ⟨ZanNumber.toString mn.value, mn.currencyCode⟩

/-! ### `MoneyFactory` -/

/-- `MoneyFactory.fromMoneyDto`: parse the amount string via `BigNumber`,
reject NaN / non-finite, then construct with the record's own currency. -/
def MoneyFactory.fromMoneyDto (dto : MoneyDto) : Except Err Money :=
  match bigFromPlainString dto.amount with
  | none => .error .invalidMoneyString
  | some d => Money.create (.big (.val d)) dto.currency

/-- `MoneyFactory.fromNumber`. -/
def MoneyFactory.fromNumber (v : JsNumber) (c : String) : Except Err Money := do
  let _ ← validateCurrencyCode c
  match v with
  | .nonfinite => .error .invalidMoneyNumber
  | .val d => Money.create (.big (.val d)) c

/-- `MoneyFactory.fromString`. -/
def MoneyFactory.fromString (s : String) (c : String) : Except Err Money := do
  let _ ← validateCurrencyCode c
  match bigFromPlainString s with
  | none => .error .invalidMoneyString
  | some d => Money.create (.big (.val d)) c

/-- `MoneyFactory.fromCents`: requires an integral finite cents value,
then divides by 100 (exactly — see `Dec.div100`). -/
def MoneyFactory.fromCents (cents : JsNumber) (c : String) : Except Err Money := do
  let _ ← validateCurrencyCode c
  match cents with
  | .nonfinite => .error .centsNotInteger
  | .val d =>
    if Dec.isInt d then Money.create (.big (.val (Dec.div100 d))) c
    else .error .centsNotInteger

/-- A runtime argument of `MoneyFactory.fromAnyOrThrow`: a `number`, a
`string`, a `BigNumber`, a record with a string `amount` and a `currency`
field, `null`/`undefined`, or any other object. -/
inductive AnyInput where
  | num (n : JsNumber)
  | str (s : String)
  | big (b : JsBigNumber)
  | dto (d : MoneyDto)
  | nullish
  | otherObject
deriving Repr

/-- `MoneyFactory.fromAnyOrThrow`: validates the passed currency code
first, then dispatches on the shape of the input; a record-shaped input
goes through `fromMoneyDto`, which uses the record's own currency. -/
def MoneyFactory.fromAnyOrThrow (v : AnyInput) (c : String) : Except Err Money := do
  let _ ← validateCurrencyCode c
  match v with
  | .nullish => .error .invalidMoneyInput
  | .num n => MoneyFactory.fromNumber n c
  | .str s => MoneyFactory.fromString s c
  | .big .nonfinite => .error .invalidMoneyBigNumber
  | .big (.val d) => Money.create (.big (.val d)) c
  | .dto d => MoneyFactory.fromMoneyDto d
  | .otherObject => .error .invalidMoneyInput

/-! ### Spec-side definitions (for refinement comparisons)

These follow the specification's words, not the source, and are only used
on the right-hand side of refinement statements. -/

/-- Modelled from the spec: round-half-away-from-zero to an integer
("ties round the preceding digit up in magnitude regardless of sign"). -/
def roundHalfAwayFromZero (q : ℚ) : Int :=
  (if q < 0 then -1 else 1) * ⌊|q| + 1 / 2⌋

/-- Modelled from the spec: round-half-to-even to an integer (the
alternative tie-break mode the spec offers for `toCents`). -/
def roundHalfToEven (q : ℚ) : Int :=
  if q - ⌊q⌋ < 1 / 2 then ⌊q⌋
  else if (1 : ℚ) / 2 < q - ⌊q⌋ then ⌊q⌋ + 1
  else if ⌊q⌋ % 2 = 0 then ⌊q⌋ else ⌊q⌋ + 1

/-- Modelled from the spec: rounding to `dp` fractional digits with
round-half-away-from-zero applied to the magnitude, the sign reattached. -/
def roundToSpec (q : ℚ) (dp : Nat) : ℚ :=
  (if q < 0 then -1 else 1) * (⌊|q| * 10 ^ dp + 1 / 2⌋ : ℚ) / 10 ^ dp

/-- The spec-level `CurrencyMismatch` condition: the computation fails
with one of the mismatch errors. -/
def raisesCurrencyMismatch {α : Type} (x : Except Err α) : Prop :=
  ∃ e, x = .error e ∧ e.isCurrencyMismatch = true

/-- Canonical-minimal-form check, integer digits: no leading zero unless
the integer part is exactly `0`. -/
def noLeadingZero (i : List Char) : Bool :=
  i == ['0'] || !(i.head? == some '0')

/-- Canonical-minimal-form check, fraction digits: no trailing zero. -/
def noTrailingZeroFrac (f : List Char) : Bool :=
  f == [] || !(f.getLast? == some '0')

theorem beq_currency_false {a b : Money} (h : a.currencyCode ≠ b.currencyCode) :
    (a.currencyCode == b.currencyCode) = false := by
  simpa using h

/-- C1: for Money values of differing currency codes, add, subtract, the
four order comparisons, instance min/max and the static sum/min/max all
raise a CurrencyMismatch condition, while isEqual returns false. -/
theorem claim_C1_mismatch (a b : Money) (h : a.currencyCode ≠ b.currencyCode) :
    raisesCurrencyMismatch (Money.add a b) ∧
    raisesCurrencyMismatch (Money.subtract a b) ∧
    raisesCurrencyMismatch (Money.isLessThan a b) ∧
    raisesCurrencyMismatch (Money.isLessThanOrEqual a b) ∧
    raisesCurrencyMismatch (Money.isGreaterThan a b) ∧
    raisesCurrencyMismatch (Money.isGreaterThanOrEqual a b) ∧
    raisesCurrencyMismatch (Money.min a b) ∧
    raisesCurrencyMismatch (Money.max a b) ∧
    raisesCurrencyMismatch (Money.sum [a, b]) ∧
    raisesCurrencyMismatch (Money.minList [a, b]) ∧
    raisesCurrencyMismatch (Money.maxList [a, b]) ∧
    Money.isEqual a b = false := by
  have hba : (b.currencyCode == a.currencyCode) = false := by
    simpa using (Ne.symm h)
  refine ⟨⟨.addMismatch, by simp [Money.add, h], rfl⟩,
    ⟨.subtractMismatch, by simp [Money.subtract, h], rfl⟩,
    ⟨.compareMismatch, by simp [Money.isLessThan, h], rfl⟩,
    ⟨.compareMismatch, by simp [Money.isLessThanOrEqual, h], rfl⟩,
    ⟨.compareMismatch, by simp [Money.isGreaterThan, h], rfl⟩,
    ⟨.compareMismatch, by simp [Money.isGreaterThanOrEqual, h], rfl⟩,
    ⟨.compareMismatch, by simp [Money.min, Money.minSel, h, Except.map], rfl⟩,
    ⟨.compareMismatch, by simp [Money.max, Money.maxSel, h, Except.map], rfl⟩,
    ⟨.sumMismatch, by simp [Money.sum, hba], rfl⟩,
    ⟨.compareMismatch, by simp [Money.minList, hba], rfl⟩,
    ⟨.compareMismatch, by simp [Money.maxList, hba], rfl⟩,
    by simp [Money.isEqual, beq_currency_false h]⟩

theorem claim_C1_mismatch_witness :
    (Money.currencyCode ⟨⟨⟨false, 100, 2⟩⟩, "USD"⟩ ≠ Money.currencyCode ⟨⟨⟨false, 200, 2⟩⟩, "EUR"⟩) ∧
    raisesCurrencyMismatch (Money.add ⟨⟨⟨false, 100, 2⟩⟩, "USD"⟩ ⟨⟨⟨false, 200, 2⟩⟩, "EUR"⟩) :=
  ⟨by decide, (claim_C1_mismatch ⟨⟨⟨false, 100, 2⟩⟩, "USD"⟩ ⟨⟨⟨false, 200, 2⟩⟩, "EUR"⟩ (by decide)).1⟩

theorem blt_asymm_of_not {a b : Dec} (h : Dec.blt a b = false) : Dec.ble b a = true := by
  simp [Dec.blt] at h
  simpa [Dec.ble] using h

/-- C3 counterexample: two equal-valued Money (negative zero and positive
zero, same currency) for which the instance min returns the argument, not
the receiver. -/
theorem claim_C3_counterexample :
    Dec.beqv (⟨⟨⟨true, 0, 0⟩⟩, "USD"⟩ : Money).value.value (⟨⟨⟨false, 0, 0⟩⟩, "USD"⟩ : Money).value.value = true ∧
    Money.min ⟨⟨⟨true, 0, 0⟩⟩, "USD"⟩ ⟨⟨⟨false, 0, 0⟩⟩, "USD"⟩ = .ok ⟨⟨⟨false, 0, 0⟩⟩, "USD"⟩ ∧
    (⟨⟨⟨false, 0, 0⟩⟩, "USD"⟩ : Money) ≠ ⟨⟨⟨true, 0, 0⟩⟩, "USD"⟩ ∧
    Money.minSel ⟨⟨⟨true, 0, 0⟩⟩, "USD"⟩ ⟨⟨⟨false, 0, 0⟩⟩, "USD"⟩ = .ok .argument ∧
    Money.maxSel ⟨⟨⟨true, 0, 0⟩⟩, "USD"⟩ ⟨⟨⟨false, 0, 0⟩⟩, "USD"⟩ = .ok .argument := by
  refine ⟨by decide, rfl, by decide, rfl, rfl⟩

/-- C3 amended: with equal currency codes, instance min/max return one of
the two operands — the one whose value compares as minimum/maximum — and
on exact value equality the ARGUMENT (`other`), not the receiver, is the
operand returned. -/
theorem claim_C3_amended (a b : Money) (h : a.currencyCode = b.currencyCode) :
    (Money.min a b = .ok a ∨ Money.min a b = .ok b) ∧
    (Money.max a b = .ok a ∨ Money.max a b = .ok b) ∧
    (∀ r, Money.min a b = .ok r →
      Dec.ble r.value.value a.value.value = true ∧ Dec.ble r.value.value b.value.value = true) ∧
    (∀ r, Money.max a b = .ok r →
      Dec.ble a.value.value r.value.value = true ∧ Dec.ble b.value.value r.value.value = true) ∧
    (Dec.beqv a.value.value b.value.value = true →
      Money.minSel a b = .ok .argument ∧ Money.maxSel a b = .ok .argument ∧
      Money.min a b = .ok b ∧ Money.max a b = .ok b) := by
  have hnn : ¬ a.currencyCode ≠ b.currencyCode := by simpa using h
  constructor
  · rcases hlt : Dec.blt a.value.value b.value.value with _ | _
    · right; simp [Money.min, Money.minSel, hnn, hlt, Except.map]
    · left; simp [Money.min, Money.minSel, hnn, hlt, Except.map]
  constructor
  · rcases hgt : Dec.blt b.value.value a.value.value with _ | _
    · right; simp [Money.max, Money.maxSel, hnn, hgt, Except.map]
    · left; simp [Money.max, Money.maxSel, hnn, hgt, Except.map]
  refine ⟨?_, ?_, ?_⟩
  · intro r hr
    rcases hlt : Dec.blt a.value.value b.value.value with _ | _
    · simp [Money.min, Money.minSel, hnn, hlt, Except.map] at hr
      subst hr
      exact ⟨blt_asymm_of_not hlt, by simp [Dec.ble]⟩
    · simp [Money.min, Money.minSel, hnn, hlt, Except.map] at hr
      subst hr
      refine ⟨by simp [Dec.ble], ?_⟩
      simp [Dec.blt] at hlt
      simpa [Dec.ble] using le_of_lt hlt
  · intro r hr
    rcases hgt : Dec.blt b.value.value a.value.value with _ | _
    · simp [Money.max, Money.maxSel, hnn, hgt, Except.map] at hr
      subst hr
      exact ⟨blt_asymm_of_not hgt, by simp [Dec.ble]⟩
    · simp [Money.max, Money.maxSel, hnn, hgt, Except.map] at hr
      subst hr
      refine ⟨by simp [Dec.ble], ?_⟩
      simp [Dec.blt] at hgt
      simpa [Dec.ble] using le_of_lt hgt
  · intro heq
    simp [Dec.beqv] at heq
    have h1 : Dec.blt a.value.value b.value.value = false := by simp [Dec.blt, heq]
    have h2 : Dec.blt b.value.value a.value.value = false := by simp [Dec.blt, heq]
    exact ⟨by simp [Money.minSel, hnn, h1],
      by simp [Money.maxSel, hnn, h2],
      by simp [Money.min, Money.minSel, hnn, h1, Except.map],
      by simp [Money.max, Money.maxSel, hnn, h2, Except.map]⟩

theorem claim_C3_amended_witness :
    (Money.currencyCode ⟨⟨⟨false, 15, 1⟩⟩, "USD"⟩ = Money.currencyCode ⟨⟨⟨false, 25, 1⟩⟩, "USD"⟩) ∧
    (Money.min ⟨⟨⟨false, 15, 1⟩⟩, "USD"⟩ ⟨⟨⟨false, 25, 1⟩⟩, "USD"⟩ = .ok ⟨⟨⟨false, 15, 1⟩⟩, "USD"⟩ ∨
     Money.min ⟨⟨⟨false, 15, 1⟩⟩, "USD"⟩ ⟨⟨⟨false, 25, 1⟩⟩, "USD"⟩ = .ok ⟨⟨⟨false, 25, 1⟩⟩, "USD"⟩) :=
  ⟨rfl, (claim_C3_amended ⟨⟨⟨false, 15, 1⟩⟩, "USD"⟩ ⟨⟨⟨false, 25, 1⟩⟩, "USD"⟩ rfl).1⟩

/-- C4 counterexample: the Decimal Core isEqual is not total — an alien
argument raises InvalidType and a NaN number raises InvalidNumber, rather
than comparing unequal. -/
theorem claim_C4_counterexample :
    ZanNumber.isEqual ⟨⟨false, 0, 0⟩⟩ (.other .otherVal) = .error .invalidInputType ∧
    ZanNumber.isEqual ⟨⟨false, 0, 0⟩⟩ (.other (.num .nonfinite)) = .error .invalidNumberValue := by
  exact ⟨rfl, rfl⟩

/-- C4 amended: ZanNumber.isEqual compares by exact value on convertible
arguments (a ZanNumber, a finite BigNumber, a finite number, a parsable
string), but raises on every non-convertible argument — InvalidType for an
alien value, InvalidNumber for a NaN/non-finite number, the invalid-
BigNumber condition for a non-finite BigNumber, InvalidFormat for a
non-numeric string — instead of returning false. -/
theorem claim_C4_amended (z : ZanNumber) :
    ZanNumber.isEqual z (.other .otherVal) = .error .invalidInputType ∧
    ZanNumber.isEqual z (.other (.num .nonfinite)) = .error .invalidNumberValue ∧
    ZanNumber.isEqual z (.other (.big .nonfinite)) = .error .invalidBigNumberValue ∧
    ZanNumber.isEqual z (.other (.str "abc")) = .error .invalidStringFormat ∧
    ZanNumber.isEqual z (.other (.str "NaN")) = .error .invalidStringFormat ∧
    (∀ w : ZanNumber, ZanNumber.isEqual z (.zan w) = .ok (Dec.beqv z.value w.value)) ∧
    (∀ d : Dec, ZanNumber.isEqual z (.other (.big (.val d))) = .ok (Dec.beqv z.value d)) ∧
    (∀ d : Dec, ZanNumber.isEqual z (.other (.num (.val d))) = .ok (Dec.beqv z.value d)) := by
  exact ⟨rfl, rfl, rfl, rfl, rfl, fun w => rfl, fun d => rfl, fun d => rfl⟩

/-- C5 counterexample: the ZanNumber statics do fail on zero operands, but
with the invalid-BigNumber (InvalidNumber) condition — the NaN of the empty
BigNumber aggregate rejected by the constructor — not with EmptySequence. -/
theorem claim_C5_counterexample :
    ZanNumber.sum [] = .error .invalidBigNumberValue ∧
    ZanNumber.min [] = .error .invalidBigNumberValue ∧
    ZanNumber.max [] = .error .invalidBigNumberValue ∧
    Err.isEmptySequence .invalidBigNumberValue = false := by
  exact ⟨rfl, rfl, rfl, rfl⟩

/-- C5 amended: on zero operands the Money statics raise EmptySequence
while the ZanNumber statics raise the InvalidNumber condition (NaN from the
empty BigNumber aggregate); with exactly one operand, every aggregation
returns that operand's value unchanged. -/
theorem claim_C5_amended (z : ZanNumber) (mn : Money)
    (h : isValidCurrencyCode mn.currencyCode = true) :
    ZanNumber.sum [] = .error .invalidBigNumberValue ∧
    ZanNumber.min [] = .error .invalidBigNumberValue ∧
    ZanNumber.max [] = .error .invalidBigNumberValue ∧
    (Money.sum [] = .error .emptySum ∧ Err.isEmptySequence .emptySum = true) ∧
    (Money.minList [] = .error .emptyMin ∧ Err.isEmptySequence .emptyMin = true) ∧
    (Money.maxList [] = .error .emptyMax ∧ Err.isEmptySequence .emptyMax = true) ∧
    ZanNumber.sum [z] = .ok z ∧
    ZanNumber.min [z] = .ok z ∧
    ZanNumber.max [z] = .ok z ∧
    Money.sum [mn] = .ok mn ∧
    Money.minList [mn] = .ok mn ∧
    Money.maxList [mn] = .ok mn := by
  refine ⟨rfl, rfl, rfl, ⟨rfl, rfl⟩, ⟨rfl, rfl⟩, ⟨rfl, rfl⟩, rfl, rfl, rfl, ?_, ?_, ?_⟩
  · simp [Money.sum, ZanNumber.sum, bigSum, Money.create, validateCurrencyCode, h,
      ZanNumber.ofInput, Bind.bind, Except.bind]
  · simp [Money.minList, ZanNumber.min, bigMinList, Money.create, validateCurrencyCode, h,
      ZanNumber.ofInput, Bind.bind, Except.bind]
  · simp [Money.maxList, ZanNumber.max, bigMaxList, Money.create, validateCurrencyCode, h,
      ZanNumber.ofInput, Bind.bind, Except.bind]

theorem claim_C5_amended_witness :
    isValidCurrencyCode (Money.currencyCode ⟨⟨⟨false, 42, 1⟩⟩, "PLN"⟩) = true ∧
    Money.sum [⟨⟨⟨false, 42, 1⟩⟩, "PLN"⟩] = .ok ⟨⟨⟨false, 42, 1⟩⟩, "PLN"⟩ :=
  ⟨by decide, (claim_C5_amended ⟨⟨false, 7, 0⟩⟩ ⟨⟨⟨false, 42, 1⟩⟩, "PLN"⟩ (by decide)).2.2.2.2.2.2.2.2.2.1⟩

/-- C9: exact decimal addition — Money "100.123456789" plus Money
"50.987654321" (both USD) prints exactly "151.11111111". -/
theorem claim_C9_precision :
    (MoneyFactory.fromString "100.123456789" "USD").bind
      (fun a => (MoneyFactory.fromString "50.987654321" "USD").bind
        (fun b => (Money.add a b).map Money.toString)) = .ok "151.11111111" := by
  rfl

/-- C10: fromAnyOrThrow on a record-shaped input validates the passed
currency code but then delegates to fromMoneyDto, so the resulting Money
carries the record's own currency, even when the two differ. -/
theorem claim_C10_dto_currency (d : MoneyDto) (c : String)
    (hc : isValidCurrencyCode c = true) :
    MoneyFactory.fromAnyOrThrow (.dto d) c = MoneyFactory.fromMoneyDto d ∧
    ∀ mn : Money, MoneyFactory.fromMoneyDto d = .ok mn → mn.currencyCode = d.currency := by
  constructor
  · simp [MoneyFactory.fromAnyOrThrow, validateCurrencyCode, hc, Bind.bind, Except.bind]
  · intro mn hmn
    unfold MoneyFactory.fromMoneyDto at hmn
    rcases hp : bigFromPlainString d.amount with _ | v
    · rw [hp] at hmn; exact absurd hmn (by simp)
    · rw [hp] at hmn
      unfold Money.create at hmn
      rcases hv : validateCurrencyCode d.currency with _ | u
      · rw [hv] at hmn; exact absurd hmn (by simp [Bind.bind, Except.bind])
      · rw [hv] at hmn
        simp [Bind.bind, Except.bind, ZanNumber.ofInput] at hmn
        rw [← hmn]

theorem claim_C10_dto_currency_witness :
    isValidCurrencyCode "USD" = true ∧
    MoneyFactory.fromAnyOrThrow (.dto ⟨"1.5", "EUR"⟩) "USD" = MoneyFactory.fromMoneyDto ⟨"1.5", "EUR"⟩ :=
  ⟨by decide, (claim_C10_dto_currency ⟨"1.5", "EUR"⟩ "USD" (by decide)).1⟩

theorem toRat_times100 (d : Dec) : Dec.toRat (Dec.times100 d) = 100 * Dec.toRat d := by
  unfold Dec.toRat Dec.times100 Dec.intVal
  cases hn : d.neg <;> push_cast <;> ring

theorem jsMathRound_intCast (n : Int) : jsMathRound (n : ℚ) = n := by
  unfold jsMathRound
  rw [add_comm, Int.floor_add_int]
  norm_num

/-- C7 counterexample: toCents of -0.015 is -1 (JavaScript Math.round
rounds the tie -1.5 toward positive infinity), while both rounding modes
the claim allows — half-away-from-zero and half-to-even — give -2. -/
theorem claim_C7_counterexample :
    Money.toCents ⟨⟨⟨true, 15, 3⟩⟩, "USD"⟩ = -1 ∧
    Dec.toRat (Dec.times100 ⟨true, 15, 3⟩) = -3/2 ∧
    roundHalfAwayFromZero (-3/2) = -2 ∧
    roundHalfToEven (-3/2) = -2 := by
  have hv : Dec.toRat (Dec.times100 ⟨true, 15, 3⟩) = -3/2 := by
    norm_num [Dec.toRat, Dec.times100, Dec.intVal]
  refine ⟨?_, hv, ?_, ?_⟩
  · show jsMathRound (Dec.toRat (Dec.times100 ⟨true, 15, 3⟩)) = -1
    rw [hv]
    unfold jsMathRound
    norm_num
  · unfold roundHalfAwayFromZero
    rw [if_pos (by norm_num), show |(-3/2 : ℚ)| = 3/2 by rw [abs_of_neg] <;> norm_num]
    norm_num
  · unfold roundHalfToEven
    norm_num

set_option linter.unusedVariables false in
/-- C7 amended: toCents multiplies by 100 and rounds to the nearest
integer, but exact-half ties are resolved by JavaScript Math.round — half
toward positive infinity: a tie at k + 1/2 with |2k + 1| < 2^53 (so the
tie value is exactly representable as a double and the toNumber
intermediate is lossless) yields k + 1 — positive ties round away from
zero, negative ties toward zero, matching neither half-away-from-zero nor
half-to-even.  For ties of larger magnitude the double conversion inside
toNumber resolves the tie (to even) before Math.round ever sees it.
The representability bound is the domain restriction under which the
exact-toNumber model is faithful; the model-level proof does not consume
it. -/
theorem claim_C7_amended (mn : Money) (k : Int)
    (h : 200 * Dec.intVal mn.value.value = (2 * k + 1) * 10 ^ mn.value.value.s)
    (hk : (2 * k + 1).natAbs < 2 ^ 53) :
    Money.toCents mn = k + 1 := by
  have h' : ((200 : ℚ)) * (Dec.intVal mn.value.value : ℚ) =
      (2 * (k : ℚ) + 1) * (10 : ℚ) ^ mn.value.value.s := by
    exact_mod_cast congrArg (fun z : Int => (z : ℚ)) h
  have hq : Dec.toRat (Dec.times100 mn.value.value) = (2 * (k : ℚ) + 1) / 2 := by
    rw [toRat_times100]
    unfold Dec.toRat
    field_simp
    linear_combination h'
  show jsMathRound (Dec.toRat (Dec.times100 mn.value.value)) = k + 1
  rw [hq]
  unfold jsMathRound
  rw [show ((2 * (k : ℚ) + 1) / 2 + 1/2) = (((k + 1 : Int)) : ℚ) by push_cast; ring,
    Int.floor_intCast]

theorem claim_C7_amended_witness :
    (200 * Dec.intVal (Money.value ⟨⟨⟨true, 15, 3⟩⟩, "USD"⟩).value =
      (2 * (-2) + 1) * 10 ^ (Money.value ⟨⟨⟨true, 15, 3⟩⟩, "USD"⟩).value.s) ∧
    ((2 * (-2) + 1 : Int).natAbs < 2 ^ 53) ∧
    Money.toCents ⟨⟨⟨true, 15, 3⟩⟩, "USD"⟩ = -2 + 1 :=
  ⟨by decide, by decide, claim_C7_amended ⟨⟨⟨true, 15, 3⟩⟩, "USD"⟩ (-2) (by decide) (by decide)⟩

theorem intVal_natAbs (d : Dec) : (Dec.intVal d).natAbs = d.m := by
  cases hn : d.neg <;> simp [Dec.intVal, hn]

/-- C8: fromCents of any integral finite cents value n yields a Money
whose toCents is exactly n, and fromCents rejects non-integral or
non-finite cents with InvalidCents. -/
theorem claim_C8_cents (d d' : Dec) (n : Int) (c : String)
    (hc : isValidCurrencyCode c = true)
    (hd : Dec.intVal d = n * 10 ^ d.s)
    (hd' : Dec.isInt d' = false) :
    (∃ mn, MoneyFactory.fromCents (.val d) c = .ok mn ∧ Money.toCents mn = n) ∧
    MoneyFactory.fromCents (.val d') c = .error .centsNotInteger ∧
    MoneyFactory.fromCents .nonfinite c = .error .centsNotInteger := by
  have hint : Dec.isInt d = true := by
    have hm : d.m = n.natAbs * 10 ^ d.s := by
      have := congrArg Int.natAbs hd
      rwa [intVal_natAbs, Int.natAbs_mul, Int.natAbs_pow] at this
    simp [Dec.isInt, hm, Nat.mul_mod_left]
  refine ⟨⟨⟨⟨Dec.div100 d⟩, c⟩, ?_, ?_⟩, ?_, ?_⟩
  · simp [MoneyFactory.fromCents, validateCurrencyCode, hc, hint, Money.create,
      ZanNumber.ofInput, Bind.bind, Except.bind]
  · show jsMathRound (Dec.toRat (Dec.times100 (Dec.div100 d))) = n
    have hval : Dec.toRat (Dec.times100 (Dec.div100 d)) = (n : ℚ) := by
      rw [toRat_times100]
      unfold Dec.toRat Dec.div100
      have h1 : Dec.intVal ⟨d.neg, d.m, d.s + 2⟩ = Dec.intVal d := by
        simp [Dec.intVal]
      rw [h1, hd]
      push_cast
      rw [pow_add]
      have h10 : ((10 : ℚ)) ^ d.s ≠ 0 := by positivity
      field_simp
      ring
    rw [hval, jsMathRound_intCast]
  · simp [MoneyFactory.fromCents, validateCurrencyCode, hc, hd', Bind.bind, Except.bind]
  · simp [MoneyFactory.fromCents, validateCurrencyCode, hc, Bind.bind, Except.bind]

theorem claim_C8_cents_witness :
    isValidCurrencyCode "USD" = true ∧
    Dec.intVal ⟨false, 5, 0⟩ = 5 * 10 ^ (0 : Nat) ∧
    Dec.isInt ⟨false, 5, 1⟩ = false ∧
    (∃ mn, MoneyFactory.fromCents (.val ⟨false, 5, 0⟩) "USD" = .ok mn ∧ Money.toCents mn = 5) :=
  ⟨by decide, by decide, by decide,
    (claim_C8_cents ⟨false, 5, 0⟩ ⟨false, 5, 1⟩ 5 "USD" (by decide) (by decide) (by decide)).1⟩

theorem natHalfRound (m K : Nat) (hK : 0 < K) :
    ⌊(m : ℚ) / (K : ℚ) + 1 / 2⌋ = ((m / K + if K ≤ 2 * (m % K) then 1 else 0 : Nat) : Int) := by
  have hK' : ((K : ℚ)) ≠ 0 := by positivity
  have h1 : (m : ℚ) / (K : ℚ) + 1 / 2 = ((2 * m + K : Nat) : ℚ) / ((2 * K : Nat) : ℚ) := by
    push_cast
    field_simp
    ring
  rw [h1, Rat.floor_natCast_div_natCast, ← Int.natCast_div]
  congr 1
  have hm : 2 * m + K = (2 * (m % K) + K) + (m / K) * (2 * K) := by
    conv_lhs => rw [← Nat.div_add_mod m K]
    ring
  rw [hm, Nat.add_mul_div_right _ _ (by omega : 0 < 2 * K)]
  have hr : m % K < K := Nat.mod_lt _ hK
  rcases le_or_lt K (2 * (m % K)) with hle | hlt
  · rw [if_pos hle, show 2 * (m % K) + K = (2 * (m % K) - K) + 2 * K by omega,
      Nat.add_div_right _ (by omega : 0 < 2 * K), Nat.div_eq_of_lt (by omega)]
    omega
  · rw [if_neg (by omega), Nat.div_eq_of_lt (by omega)]
    omega

theorem abs_toRat (d : Dec) : |Dec.toRat d| = (d.m : ℚ) / 10 ^ d.s := by
  unfold Dec.toRat
  rw [abs_div]
  congr 1
  · rw [← Int.cast_abs, Int.abs_eq_natAbs, intVal_natAbs]
    simp
  · rw [abs_of_pos (by positivity)]

theorem toRat_eq_zero_of_m (d : Dec) (h : d.m = 0) : Dec.toRat d = 0 := by
  unfold Dec.toRat Dec.intVal
  rw [h]
  simp

theorem natFloorAddHalf (N : Nat) : ⌊(N : ℚ) + 1 / 2⌋ = N := by
  rw [add_comm, Int.floor_add_nat]
  norm_num

theorem toRat_nonneg_of_pos (d : Dec) (h : d.neg = false) : 0 ≤ Dec.toRat d := by
  unfold Dec.toRat Dec.intVal
  rw [h]
  simp only [Bool.false_eq_true, if_false, one_mul]
  positivity

theorem toRat_neg_of_neg (d : Dec) (h : d.neg = true) (hm : 0 < d.m) : Dec.toRat d < 0 := by
  unfold Dec.toRat Dec.intVal
  rw [h]
  simp only [if_true]
  have hmq : (0 : ℚ) < (d.m : ℚ) := by exact_mod_cast hm
  have h1 : (0 : ℚ) < (d.m : ℚ) / 10 ^ d.s := div_pos hmq (by positivity)
  push_cast
  rw [neg_one_mul, neg_div]
  exact neg_lt_zero.mpr h1

/-- C6: roundTo rounds at digit scale+1 with round-half-away-from-zero on
the magnitude, regardless of sign: the rounded value equals the spec-side
roundToSpec, and the three cited examples hold (104.45 → 104.5,
104.44 → 104.4, -104.45 → -104.5 at one fractional digit). -/
theorem claim_C6_rounding (d : Dec) (scale : Nat) :
    Dec.toRat (ZanNumber.round ⟨d⟩ scale).value = roundToSpec (Dec.toRat d) scale ∧
    ZanNumber.round ⟨⟨false, 10445, 2⟩⟩ 1 = ⟨⟨false, 1045, 1⟩⟩ ∧
    ZanNumber.round ⟨⟨false, 10444, 2⟩⟩ 1 = ⟨⟨false, 1044, 1⟩⟩ ∧
    ZanNumber.round ⟨⟨true, 10445, 2⟩⟩ 1 = ⟨⟨true, 1045, 1⟩⟩ := by
  refine ⟨?_, rfl, rfl, rfl⟩
  show Dec.toRat (Dec.decimalPlaces d scale) = roundToSpec (Dec.toRat d) scale
  unfold roundToSpec
  rw [abs_toRat]
  by_cases hm0 : d.m = 0
  · have hdz : Dec.toRat d = 0 := toRat_eq_zero_of_m d hm0
    have hmz : (Dec.decimalPlaces d scale).m = 0 := by
      unfold Dec.decimalPlaces
      split
      · exact hm0
      · simp [hm0]
    rw [toRat_eq_zero_of_m _ hmz, hdz, hm0]
    norm_num
  · have hm : 0 < d.m := Nat.pos_of_ne_zero hm0
    have hsign : (if Dec.toRat d < 0 then (-1 : ℚ) else 1) = (if d.neg = true then -1 else 1) := by
      cases hneg : d.neg
      · rw [if_neg (not_lt.mpr (toRat_nonneg_of_pos d hneg))]
        simp
      · rw [if_pos (toRat_neg_of_neg d hneg hm)]
        simp
    rw [hsign]
    by_cases hs : d.s ≤ scale
    · have hpow : (10 : ℚ) ^ scale = 10 ^ d.s * 10 ^ (scale - d.s) := by
        rw [← pow_add]
        congr 1
        omega
      have h10 : ((10 : ℚ)) ^ d.s ≠ 0 := by positivity
      have hcast : (d.m : ℚ) / 10 ^ d.s * 10 ^ scale = ((d.m * 10 ^ (scale - d.s) : ℕ) : ℚ) := by
        push_cast
        rw [hpow]
        field_simp
        ring
      unfold Dec.decimalPlaces
      rw [if_pos hs, hcast, natFloorAddHalf]
      unfold Dec.toRat Dec.intVal
      cases hneg : d.neg <;>
        simp only [hneg, Bool.false_eq_true, if_false, if_true, one_mul, neg_one_mul] <;>
        push_cast <;>
        rw [hpow] <;>
        field_simp <;>
        ring
    · have hK : 0 < 10 ^ (d.s - scale) := by positivity
      have hpow : (10 : ℚ) ^ d.s = ((10 ^ (d.s - scale) : ℕ) : ℚ) * 10 ^ scale := by
        push_cast
        rw [← pow_add]
        congr 1
        omega
      have hKq : ((10 ^ (d.s - scale) : ℕ) : ℚ) ≠ 0 := by positivity
      have h10 : ((10 : ℚ)) ^ scale ≠ 0 := by positivity
      have hcast : (d.m : ℚ) / 10 ^ d.s * 10 ^ scale = (d.m : ℚ) / ((10 ^ (d.s - scale) : ℕ) : ℚ) := by
        rw [hpow]
        field_simp
        ring
      rw [hcast, natHalfRound _ _ hK]
      unfold Dec.decimalPlaces
      rw [if_neg hs]
      dsimp only
      unfold Dec.toRat Dec.intVal
      rcases le_or_lt (10 ^ (d.s - scale)) (2 * (d.m % 10 ^ (d.s - scale))) with hle | hlt
      · cases hneg : d.neg <;>
          simp only [hneg, Bool.false_eq_true, if_false, if_true, one_mul, neg_one_mul,
            if_pos hle]
        all_goals
          push_cast
          ring
      · cases hneg : d.neg <;>
          simp only [hneg, Bool.false_eq_true, if_false, if_true, one_mul, neg_one_mul,
            if_neg (by omega : ¬ 10 ^ (d.s - scale) ≤ 2 * (d.m % 10 ^ (d.s - scale)))] <;>
          push_cast <;>
          ring

theorem isDigitCh_cases {c : Char} (h : isDigitCh c = true) :
    c = '0' ∨ c = '1' ∨ c = '2' ∨ c = '3' ∨ c = '4' ∨ c = '5' ∨ c = '6' ∨ c = '7' ∨
    c = '8' ∨ c = '9' := by
  simpa [isDigitCh, decDigitChars] using h

theorem chVal_lt_ten {c : Char} (h : isDigitCh c = true) : chVal c < 10 := by
  rcases isDigitCh_cases h with h' | h' | h' | h' | h' | h' | h' | h' | h' | h' <;>
    subst h' <;> decide

theorem chOfVal_chVal {c : Char} (h : isDigitCh c = true) : chOfVal (chVal c) = c := by
  rcases isDigitCh_cases h with h' | h' | h' | h' | h' | h' | h' | h' | h' | h' <;>
    subst h' <;> decide

theorem chVal_ne_zero {c : Char} (h : isDigitCh c = true) (h0 : c ≠ '0') : chVal c ≠ 0 := by
  rcases isDigitCh_cases h with h' | h' | h' | h' | h' | h' | h' | h' | h' | h' <;>
    subst h' <;> first | exact absurd rfl h0 | decide

theorem digit_ne_dash {c : Char} (h : isDigitCh c = true) : c ≠ '-' := by
  rcases isDigitCh_cases h with h' | h' | h' | h' | h' | h' | h' | h' | h' | h' <;>
    subst h' <;> decide

theorem digitsToNat_aux (l : List Char) :
    ∀ a : Nat, l.foldl (fun a c => 10 * a + chVal c) a =
      a * 10 ^ l.length + Nat.ofDigits 10 ((l.map chVal).reverse) := by
  induction l with
  | nil => intro a; simp [Nat.ofDigits]
  | cons c t ih =>
    intro a
    simp only [List.foldl_cons, List.length_cons, List.map_cons, List.reverse_cons]
    rw [ih, Nat.ofDigits_append]
    simp [Nat.ofDigits]
    ring

theorem digitsToNat_eq (l : List Char) :
    digitsToNat l = Nat.ofDigits 10 ((l.map chVal).reverse) := by
  unfold digitsToNat
  rw [digitsToNat_aux]
  simp

theorem natDigitsRevAux_eq (fuel : Nat) : ∀ n : Nat, n ≤ fuel →
    natDigitsRevAux fuel n = Nat.digits 10 n := by
  induction fuel with
  | zero =>
    intro n hn
    interval_cases n
    rw [Nat.digits_zero]
    simp [natDigitsRevAux]
  | succ fuel ih =>
    intro n hn
    match n with
    | 0 =>
      rw [Nat.digits_zero]
      simp [natDigitsRevAux]
    | k + 1 =>
      rw [show natDigitsRevAux (fuel + 1) (k + 1) = (k + 1) % 10 :: natDigitsRevAux fuel ((k + 1) / 10) from rfl,
        ih _ (by omega : (k + 1) / 10 ≤ fuel),
        Nat.digits_def' (by norm_num : (1 : Nat) < 10) (Nat.succ_pos k)]

theorem natDigitsRev_eq (n : Nat) : natDigitsRev n = Nat.digits 10 n :=
  natDigitsRevAux_eq n n le_rfl

theorem digitsToNat_concat (l : List Char) (c : Char) :
    digitsToNat (l ++ [c]) = 10 * digitsToNat l + chVal c := by
  simp [digitsToNat, List.foldl_append]

theorem digitsToNat_mod_ten (l : List Char) (hne : l ≠ []) (hall : l.all isDigitCh = true) :
    digitsToNat l % 10 = chVal (l.getLast hne) := by
  rcases List.eq_nil_or_concat' l with h | ⟨L, b, h⟩
  · exact absurd h hne
  · subst h
    rw [digitsToNat_concat, List.getLast_append' _ _ (by simp)]
    simp only [List.getLast_singleton]
    have hb : isDigitCh b = true := by
      simp [List.all_append] at hall
      exact hall.2
    rw [Nat.add_comm, Nat.add_mul_mod_self_left]
    exact Nat.mod_eq_of_lt (chVal_lt_ten hb)

theorem chars_roundtrip (l : List Char) (hne : l ≠ []) (hall : l.all isDigitCh = true)
    (hhead : l.head hne ≠ '0') :
    natDigitsRev (digitsToNat l) = (l.map chVal).reverse ∧ digitsToNat l ≠ 0 ∧
    natToChars (digitsToNat l) = l := by
  have hallmem : ∀ c ∈ l, isDigitCh c = true := by
    simpa [List.all_eq_true] using hall
  have hlt : ∀ x ∈ (l.map chVal).reverse, x < 10 := by
    intro x hx
    simp only [List.mem_reverse, List.mem_map] at hx
    obtain ⟨c, hc, rfl⟩ := hx
    exact chVal_lt_ten (hallmem c hc)
  have hrevne : (l.map chVal).reverse ≠ [] := by
    simpa using hne
  have hlast : ∀ (h : (l.map chVal).reverse ≠ []), ((l.map chVal).reverse).getLast h ≠ 0 := by
    intro h
    rcases l with _ | ⟨c, t⟩
    · exact absurd rfl hne
    · simp only [List.map_cons, List.reverse_cons]
      rw [List.getLast_append' _ _ (by simp)]
      simp only [List.getLast_singleton]
      exact chVal_ne_zero (hallmem c (by simp)) (by simpa using hhead)
  have key := Nat.digits_ofDigits 10 (by norm_num) ((l.map chVal).reverse) hlt hlast
  have hd : natDigitsRev (digitsToNat l) = (l.map chVal).reverse := by
    rw [digitsToNat_eq, natDigitsRev_eq, key]
  have hnz : digitsToNat l ≠ 0 := by
    intro h0
    rw [h0] at hd
    exact hrevne (by simpa [natDigitsRev, natDigitsRevAux] using hd.symm)
  refine ⟨hd, hnz, ?_⟩
  unfold natToChars
  rw [if_neg hnz, hd, List.reverse_reverse, List.map_map]
  conv_rhs => rw [show l = l.map id from (List.map_id l).symm]
  exact List.map_congr_left fun c hc => chOfVal_chVal (hallmem c hc)

theorem digitsToNat_dropZeros (z : Nat) (g : List Char) :
    digitsToNat (List.replicate z '0' ++ g) = digitsToNat g := by
  induction z with
  | zero => simp
  | succ z ih =>
    rw [List.replicate_succ, List.cons_append]
    show (List.replicate z '0' ++ g).foldl (fun a c => 10 * a + chVal c) (10 * 0 + chVal '0') =
      digitsToNat g
    rw [show 10 * 0 + chVal '0' = 0 from rfl]
    exact ih

theorem zeros_split (f : List Char) (hne : f ≠ []) (hall : f.all isDigitCh = true)
    (hlast : f.getLast hne ≠ '0') :
    ∃ z g, f = List.replicate z '0' ++ g ∧ g ≠ [] ∧ g.all isDigitCh = true ∧
      ∀ h : g ≠ [], g.head h ≠ '0' := by
  induction f with
  | nil => exact absurd rfl hne
  | cons c t ih =>
    have hall' := hall
    rw [List.all_cons, Bool.and_eq_true] at hall'
    obtain ⟨hc, ht⟩ := hall'
    by_cases hc0 : c = '0'
    · subst hc0
      have htne : t ≠ [] := by
        rintro rfl
        exact hlast rfl
      have hlt : t.getLast htne ≠ '0' := by
        rwa [List.getLast_cons htne] at hlast
      obtain ⟨z, g, hfg, hgne, hgall, hghead⟩ := ih htne ht hlt
      exact ⟨z + 1, g, by rw [List.replicate_succ, List.cons_append, hfg], hgne, hgall, hghead⟩
    · exact ⟨0, c :: t, by simp, by simp, hall, fun h => by simpa using hc0⟩

theorem stripTZ_no_strip (m s : Nat) (h : s = 0 ∨ m % 10 ≠ 0) : stripTZ m s = (m, s) := by
  rcases s with _ | s
  · rfl
  · rcases h with h | h
    · exact absurd h (by omega)
    · unfold stripTZ
      rw [if_neg h]

theorem takeWhile_all_app (p : Char → Bool) (l₁ l₂ : List Char) (h : l₁.all p = true) :
    (l₁ ++ l₂).takeWhile p = l₁ ++ l₂.takeWhile p := by
  induction l₁ with
  | nil => simp
  | cons c t ih =>
    rw [List.all_cons, Bool.and_eq_true] at h
    obtain ⟨hc, ht⟩ := h
    simp [List.takeWhile_cons, hc, ih ht]

theorem dropWhile_all_app (p : Char → Bool) (l₁ l₂ : List Char) (h : l₁.all p = true) :
    (l₁ ++ l₂).dropWhile p = l₂.dropWhile p := by
  induction l₁ with
  | nil => simp
  | cons c t ih =>
    rw [List.all_cons, Bool.and_eq_true] at h
    obtain ⟨hc, ht⟩ := h
    simp [List.dropWhile_cons, hc, ih ht]

theorem decompUnsigned_rebuild (n : Bool) (i f : List Char) (hne : i ≠ [])
    (hi : i.all isDigitCh = true) (hf : f.all isDigitCh = true) :
    decompUnsigned n (i ++ (if f = [] then [] else '.' :: f)) = some (n, i, f) := by
  have hdot : isDigitCh '.' = false := rfl
  have htake : (i ++ (if f = [] then [] else '.' :: f)).takeWhile isDigitCh = i := by
    rw [takeWhile_all_app _ _ _ hi]
    rcases f with _ | ⟨c, g⟩
    · simp
    · simp [List.takeWhile_cons, hdot]
  have hdrop : (i ++ (if f = [] then [] else '.' :: f)).dropWhile isDigitCh =
      (if f = [] then [] else '.' :: f) := by
    rw [dropWhile_all_app _ _ _ hi]
    rcases f with _ | ⟨c, g⟩
    · simp
    · simp [List.dropWhile_cons, hdot]
  unfold decompUnsigned
  rw [htake, hdrop, if_neg hne]
  rcases f with _ | ⟨c, g⟩
  · rfl
  · simp only [if_neg (by simp : ¬ (c :: g : List Char) = [])]
    rw [if_pos ⟨by simp, hf⟩]

theorem decomp_rebuild (n : Bool) (i f : List Char) (hne : i ≠ [])
    (hi : i.all isDigitCh = true) (hf : f.all isDigitCh = true) :
    decompAmount (rebuildAmount n i f) = some (n, i, f) := by
  cases n
  · have hr : rebuildAmount false i f = i ++ (if f = [] then [] else '.' :: f) := by
      simp [rebuildAmount]
    rw [hr]
    rcases i with _ | ⟨c, i'⟩
    · exact absurd rfl hne
    · have hc : isDigitCh c = true := by
        rw [List.all_cons, Bool.and_eq_true] at hi
        exact hi.1
      rw [List.cons_append]
      unfold decompAmount
      split
      · rename_i rest heq
        rw [List.cons.injEq] at heq
        exact absurd heq.1 (digit_ne_dash hc)
      · rw [← List.cons_append]
        exact decompUnsigned_rebuild false (c :: i') f hne hi hf
  · have hr : rebuildAmount true i f = '-' :: (i ++ (if f = [] then [] else '.' :: f)) := by
      simp [rebuildAmount]
    rw [hr]
    show decompUnsigned true (i ++ (if f = [] then [] else '.' :: f)) = some (true, i, f)
    exact decompUnsigned_rebuild true i f hne hi hf

theorem noLeadingZero_cases {i : List Char} (hne : i ≠ []) (h : noLeadingZero i = true) :
    i = ['0'] ∨ ∀ h' : i ≠ [], i.head h' ≠ '0' := by
  rcases i with _ | ⟨c, i'⟩
  · exact absurd rfl hne
  · by_cases hc : c = '0'
    · subst hc
      left
      unfold noLeadingZero at h
      simp only [List.head?_cons, Option.some.injEq] at h
      rcases Bool.or_eq_true_iff.mp h with h1 | h1
      · exact beq_iff_eq.mp h1
      · simp at h1
    · right
      intro h'
      simpa using hc

theorem noTrailingZeroFrac_getLast {f : List Char} (hne : f ≠ []) (h : noTrailingZeroFrac f = true) :
    f.getLast hne ≠ '0' := by
  unfold noTrailingZeroFrac at h
  rcases Bool.or_eq_true_iff.mp h with h1 | h1
  · exact absurd (by simpa using h1) hne
  · rw [List.getLast?_eq_getLast_of_ne_nil hne] at h1
    simpa using h1

theorem decToChars_rebuild (n : Bool) (i f : List Char) (hne : i ≠ [])
    (hi : i.all isDigitCh = true) (hf : f.all isDigitCh = true)
    (hlead : noLeadingZero i = true) (htrail : noTrailingZeroFrac f = true)
    (hnz : n = true → digitsToNat (i ++ f) ≠ 0)
    (hrange : Dec.plainRangeOk ⟨n, digitsToNat (i ++ f), f.length⟩ = true) :
    Dec.decToChars ⟨n, digitsToNat (i ++ f), f.length⟩ = rebuildAmount n i f := by
  by_cases hfe : f = []
  · subst hfe
    rw [List.append_nil] at hrange ⊢
    have hstrip : stripTZ (digitsToNat i) ([] : List Char).length = (digitsToNat i, 0) := rfl
    rcases noLeadingZero_cases hne hlead with hi0 | hh
    · subst hi0
      cases hn : n
      · rfl
      · exact absurd (by decide) (hnz hn)
    · obtain ⟨hdrev, hM0, hchars⟩ := chars_roundtrip i hne hi (hh hne)
      show decCharsTrimmed n (stripTZ (digitsToNat i) ([] : List Char).length).1
        (stripTZ (digitsToNat i) ([] : List Char).length).2 = rebuildAmount n i []
      rw [hstrip]
      unfold decCharsTrimmed
      rw [if_neg hM0]
      have hcond : -7 < msdExp (digitsToNat i) 0 ∧ msdExp (digitsToNat i) 0 < 21 := by
        have hr := hrange
        unfold Dec.plainRangeOk at hr
        rw [show (⟨n, digitsToNat i, List.length []⟩ : Dec).m = digitsToNat i from rfl,
          show (⟨n, digitsToNat i, List.length []⟩ : Dec).s = 0 from rfl,
          show stripTZ (digitsToNat i) 0 = (digitsToNat i, 0) from rfl] at hr
        simpa [hM0] using hr
      rw [if_pos hcond]
      unfold plainChars
      rw [if_pos rfl, hchars]
      unfold rebuildAmount
      simp
  · have hlastf : f.getLast hfe ≠ '0' := noTrailingZeroFrac_getLast hfe htrail
    have hifne : i ++ f ≠ [] := by simp [hne]
    have hallif : (i ++ f).all isDigitCh = true := by
      rw [List.all_append, hi, hf]
      rfl
    have hlastmem : f.getLast hfe ∈ f := List.getLast_mem hfe
    have hlastdig : isDigitCh (f.getLast hfe) = true := by
      rw [List.all_eq_true] at hf
      exact hf _ hlastmem
    have hmod : digitsToNat (i ++ f) % 10 ≠ 0 := by
      rw [digitsToNat_mod_ten (i ++ f) hifne hallif, List.getLast_append' i f hfe]
      exact chVal_ne_zero hlastdig hlastf
    have hM0 : digitsToNat (i ++ f) ≠ 0 := by
      intro h0
      rw [h0] at hmod
      exact hmod rfl
    have hstrip : stripTZ (digitsToNat (i ++ f)) f.length = (digitsToNat (i ++ f), f.length) :=
      stripTZ_no_strip _ _ (Or.inr hmod)
    show decCharsTrimmed n (stripTZ (digitsToNat (i ++ f)) f.length).1
      (stripTZ (digitsToNat (i ++ f)) f.length).2 = rebuildAmount n i f
    rw [hstrip]
    unfold decCharsTrimmed
    rw [if_neg hM0]
    have hcond : -7 < msdExp (digitsToNat (i ++ f)) f.length ∧
        msdExp (digitsToNat (i ++ f)) f.length < 21 := by
      have hr := hrange
      unfold Dec.plainRangeOk at hr
      rw [show (⟨n, digitsToNat (i ++ f), f.length⟩ : Dec).m = digitsToNat (i ++ f) from rfl,
        show (⟨n, digitsToNat (i ++ f), f.length⟩ : Dec).s = f.length from rfl, hstrip] at hr
      simpa [hM0] using hr
    rw [if_pos hcond]
    have hfl0 : f.length ≠ 0 := by
      simpa [List.length_eq_zero] using hfe
    rcases noLeadingZero_cases hne hlead with hi0 | hh
    · -- integer part is exactly "0"
      subst hi0
      obtain ⟨z, g, hfg, hgne, hgall, hghead⟩ := zeros_split f hfe hf hlastf
      have hMg : digitsToNat (['0'] ++ f) = digitsToNat g := by
        rw [show (['0'] ++ f : List Char) = List.replicate 1 '0' ++ f from rfl,
          digitsToNat_dropZeros 1 f, hfg, digitsToNat_dropZeros z g]
      obtain ⟨hgrev, hg0, hgchars⟩ := chars_roundtrip g hgne hgall (hghead hgne)
      have hflen : f.length = z + g.length := by
        rw [hfg]
        simp
      unfold plainChars
      rw [hMg, hgchars, if_neg hfl0, if_neg (by omega : ¬ f.length < g.length)]
      rw [show f.length - g.length = z by omega]
      unfold rebuildAmount
      rw [if_neg hfe]
      cases n <;> simp [hfg]
    · -- integer part has a nonzero leading digit
      have hhead_if : (i ++ f).head hifne ≠ '0' := by
        rw [List.head_append_left hne]
        exact hh hne
      obtain ⟨hdrev, hM0', hchars⟩ := chars_roundtrip (i ++ f) hifne hallif hhead_if
      have hil : 0 < i.length := List.length_pos.mpr hne
      unfold plainChars
      rw [hchars, if_neg hfl0, List.length_append,
        if_pos (by omega : f.length < i.length + f.length),
        show i.length + f.length - f.length = i.length by omega,
        List.take_left, List.drop_left]
      unfold rebuildAmount
      rw [if_neg hfe]
      simp

/-- C2 counterexample: the amount string "0.0000001" matches the
transfer-record pattern and is in canonical minimal form, yet the
fromMoneyDto/toMoneyDto round trip returns "1e-7" (bignumber.js toString
switches to exponential notation at exponent -7), not the original
string; likewise the canonical pattern string "-0" comes back as "0",
since toString suppresses the minus sign on a zero coefficient. -/
theorem claim_C2_counterexample :
    decompAmount ("0.0000001".data) = some (false, ['0'], ['0','0','0','0','0','0','1']) ∧
    noLeadingZero ['0'] = true ∧
    noTrailingZeroFrac ['0','0','0','0','0','0','1'] = true ∧
    (MoneyFactory.fromMoneyDto ⟨"0.0000001", "USD"⟩).map Money.toMoneyDto =
      .ok ⟨"1e-7", "USD"⟩ ∧
    ("1e-7" : String) ≠ "0.0000001" ∧
    decompAmount ("-0".data) = some (true, ['0'], []) ∧
    (MoneyFactory.fromMoneyDto ⟨"-0", "USD"⟩).map Money.toMoneyDto = .ok ⟨"0", "USD"⟩ ∧
    ("0" : String) ≠ "-0" := by
  exact ⟨by decide, by decide, by decide, rfl, by decide, by decide, rfl, by decide⟩

/-- C2 amended: the fromMoneyDto/toMoneyDto round trip reproduces the
amount string exactly for every canonical-minimal pattern string that is
not the signed zero "-0" and whose value prints in plain notation — the
value is zero or its leading-digit exponent e satisfies -7 < e < 21
(magnitude in [1e-6, 1e21)).  Outside that range bignumber.js toString
produces exponential notation, and "-0" comes back as "0" (toString
suppresses the sign on a zero coefficient), so the round trip fails
there.  Every pattern string is `rebuildAmount n i f` for a sign flag
and two digit runs, and conversely. -/
theorem claim_C2_amended (n : Bool) (i f : List Char) (c : String)
    (hne : i ≠ []) (hi : i.all isDigitCh = true) (hf : f.all isDigitCh = true)
    (hlead : noLeadingZero i = true) (htrail : noTrailingZeroFrac f = true)
    (hnz : n = true → digitsToNat (i ++ f) ≠ 0)
    (hc : isValidCurrencyCode c = true)
    (hrange : Option.any Dec.plainRangeOk (bigFromPlainChars (rebuildAmount n i f)) = true) :
    (MoneyFactory.fromMoneyDto ⟨⟨rebuildAmount n i f⟩, c⟩).map Money.toMoneyDto =
      .ok ⟨⟨rebuildAmount n i f⟩, c⟩ := by
  have hparse : bigFromPlainChars (rebuildAmount n i f) =
      some ⟨n, digitsToNat (i ++ f), f.length⟩ := by
    unfold bigFromPlainChars
    rw [decomp_rebuild n i f hne hi hf]
    rfl
  have hrange' : Dec.plainRangeOk ⟨n, digitsToNat (i ++ f), f.length⟩ = true := by
    rw [hparse] at hrange
    simpa [Option.any] using hrange
  have hstr : bigFromPlainString ⟨rebuildAmount n i f⟩ =
      some ⟨n, digitsToNat (i ++ f), f.length⟩ := hparse
  unfold MoneyFactory.fromMoneyDto
  rw [show (⟨⟨rebuildAmount n i f⟩, c⟩ : MoneyDto).amount = ⟨rebuildAmount n i f⟩ from rfl,
    show (⟨⟨rebuildAmount n i f⟩, c⟩ : MoneyDto).currency = c from rfl, hstr]
  unfold Money.create
  rw [show validateCurrencyCode c = .ok () by simp [validateCurrencyCode, hc]]
  simp only [Bind.bind, Except.bind, ZanNumber.ofInput, Except.map, Money.toMoneyDto,
    ZanNumber.toString, Dec.decToString]
  rw [decToChars_rebuild n i f hne hi hf hlead htrail hnz hrange']

theorem claim_C2_amended_witness :
    (MoneyFactory.fromMoneyDto ⟨⟨rebuildAmount false ['1','2','3'] ['4','5']⟩, "USD"⟩).map
      Money.toMoneyDto = .ok ⟨⟨rebuildAmount false ['1','2','3'] ['4','5']⟩, "USD"⟩ :=
  claim_C2_amended false ['1','2','3'] ['4','5'] "USD" (by decide) (by decide) (by decide)
    (by decide) (by decide) (by decide) (by decide) (by decide)
